import Mathlib

/-!
Shallow embedding of the Loom recommendation service
(src/ml-service/recommendation.py): the online NCF model, the tag-affinity
builder, the hybrid scorer, the diversity-constrained feed assembler and the
recommend endpoint.  Machine floats are modelled as real numbers; every call
the Python code makes to the random number generator (fresh embedding
initialisation, the uniform exploration term, negative sampling) is passed in
as an explicit parameter, so that each Python function becomes a deterministic
Lean function of its inputs and of the drawn values.
-/

namespace Loom

/-- Association-list lookup, modelling Python `dict.get` / `in` on dicts whose
keys are strings.  Dicts built by the embedded code always have distinct keys,
so returning the first match agrees with Python semantics. -/
def alookup {α : Type} (k : String) : List (String × α) → Option α
  | [] => none
  | (k2, v) :: rest => if k2 = k then some v else alookup k rest

theorem alookup_mem {α : Type} {k : String} {l : List (String × α)} {v : α}
    (h : alookup k l = some v) : (k, v) ∈ l := by
  induction l with
  | nil => simp [alookup] at h
  | cons kv rest ih =>
    obtain ⟨k2, v2⟩ := kv
    by_cases hk : k2 = k
    · simp [alookup, hk] at h
      simp [hk, h]
    · simp [alookup, hk] at h
      exact List.mem_cons_of_mem _ (ih h)

/-- Update-or-insert on an association list, modelling a Python
`defaultdict` write `d[k] = f(d.get(k, default))`: an existing key keeps its
position, a missing key is appended at the end (Python dict insertion
order). -/
def updAssoc {α : Type} (k : String) (f : α → α) (d : α) :
    List (String × α) → List (String × α)
  | [] => [(k, f d)]
  | (k2, v) :: rest =>
      if k2 = k then (k2, f v) :: rest else (k2, v) :: updAssoc k f d rest

-- ==========================================
-- CONSTANTS  (recommendation.py lines 54-78)
-- ==========================================

def EMBEDDING_DIM : ℕ := 32
def MIN_INTERACTIONS : ℕ := 5

noncomputable section

def LEARNING_RATE : ℝ := 0.01
def REGULARIZATION : ℝ := 0.001
def MAX_NCF_WEIGHT : ℝ := 0.65
def TAG_DECAY_FACTOR : ℝ := 0.5
def DIVERSITY_THRESHOLD : ℝ := 0.45
def FOLLOW_BOOST : ℝ := 0.12
def MAX_BEHAVIOR_PENALTY : ℝ := 0.22

/-- `CATEGORY_WEIGHTS.get(category, 0.0)` from recommendation.py. -/
def CATEGORY_WEIGHTS (c : String) : ℝ :=
  if c = "medium" then 0.15
  else if c = "subject" then 0.25
  else if c = "style" then 0.25
  else if c = "mood" then 0.15
  else if c = "color_palette" then 0.10
  else if c = "aesthetic_features" then 0.10
  else 0

-- ==========================================
-- NCF MODEL STATE  (class LoomNCF)
-- ==========================================

/-- State of the `LoomNCF` model.  numpy arrays are modelled as lists of
reals: `W1` is the list of the `2*embedding_dim` rows (each of length
`embedding_dim`), `W2` is the single column of the `(embedding_dim, 1)`
matrix, and `b2` is the single entry of the length-1 bias. -/
structure LoomNCF where
  embedding_dim : ℕ
  lr : ℝ
  reg : ℝ
  user_embeddings : List (String × List ℝ)
  post_embeddings : List (String × List ℝ)
  W1 : List (List ℝ)
  b1 : List ℝ
  W2 : List ℝ
  b2 : ℝ
  user_interaction_counts : List (String × ℕ)

/-- `_get_user_emb` / `_get_post_emb`: return the stored embedding, or insert
the freshly drawn one (`np.random.randn(dim) * 0.01`, passed in as `fresh`)
when the id is absent. -/
def getEmb (store : List (String × List ℝ)) (k : String) (fresh : List ℝ) :
    List ℝ × List (String × List ℝ) :=
  match alookup k store with
  | some v => (v, store)
  | none => (fresh, store ++ [(k, fresh)])

def vecAdd (a b : List ℝ) : List ℝ := List.zipWith (· + ·) a b

/-- Row-vector times matrix: `x @ W` where `W` is given as its list of rows. -/
def vecMat (x : List ℝ) (W : List (List ℝ)) (d : ℕ) : List ℝ :=
  (List.zipWith (fun c row => row.map (c * ·)) x W).foldl vecAdd
    (List.replicate d 0)

def dotL (a b : List ℝ) : ℝ := (List.zipWith (· * ·) a b).sum

/-- `1 / (1 + np.exp(-out[0]))`. -/
def sigmoid (z : ℝ) : ℝ := 1 / (1 + Real.exp (-z))

/-- `LoomNCF._forward` (its returned score; the hidden activations `h1` and
input `x` are only used by `update`, which no claim touches). -/
def _forward (m : LoomNCF) (user_emb post_emb : List ℝ) : ℝ :=
  let x := user_emb ++ post_emb
  let h1 := (vecAdd (vecMat x m.W1 m.embedding_dim) m.b1).map Real.tanh
  let out := dotL h1 m.W2 + m.b2
  sigmoid out

/-- `LoomNCF.predict`: fetches (creating if absent) both embeddings and
returns the forward score together with the possibly-grown model state.
`freshU`/`freshP` are the random initial embeddings used when the
corresponding id is absent. -/
def predict (m : LoomNCF) (user_id post_id : String) (freshU freshP : List ℝ) :
    ℝ × LoomNCF :=
  let ue := getEmb m.user_embeddings user_id freshU
  let pe := getEmb m.post_embeddings post_id freshP
  (_forward m ue.1 pe.1,
   { m with user_embeddings := ue.2, post_embeddings := pe.2 })

/-- `LoomNCF.ncf_weight` as a function of the user's interaction count. -/
def ncfWeightOfCount (count : ℕ) : ℝ :=
  if count < MIN_INTERACTIONS then 0
  else
    min (MAX_NCF_WEIGHT *
          (1 - 1 / (1 + Real.log ((count : ℝ) - (MIN_INTERACTIONS : ℝ) + 1))))
      MAX_NCF_WEIGHT

/-- `LoomNCF.ncf_weight`: `self.user_interaction_counts.get(user_id, 0)`
then the capped logarithmic ramp. -/
def ncf_weight (m : LoomNCF) (user_id : String) : ℝ :=
  ncfWeightOfCount ((alookup user_id m.user_interaction_counts).getD 0)

-- ==========================================
-- HELPER LEMMAS FOR ncf_weight
-- ==========================================

theorem ncfWeightOfCount_of_lt {c : ℕ} (h : c < MIN_INTERACTIONS) :
    ncfWeightOfCount c = 0 := by
  simp [ncfWeightOfCount, h]

theorem ncfWeightOfCount_eq_of_le {c : ℕ} (h : MIN_INTERACTIONS ≤ c) :
    ncfWeightOfCount c =
      MAX_NCF_WEIGHT *
        (1 - 1 / (1 + Real.log ((c : ℝ) - (MIN_INTERACTIONS : ℝ) + 1))) := by
  have hx : (1 : ℝ) ≤ (c : ℝ) - (MIN_INTERACTIONS : ℝ) + 1 := by
    have : (MIN_INTERACTIONS : ℝ) ≤ (c : ℝ) := by exact_mod_cast h
    linarith
  have hlog : 0 ≤ Real.log ((c : ℝ) - (MIN_INTERACTIONS : ℝ) + 1) :=
    Real.log_nonneg hx
  have hden : (0 : ℝ) < 1 + Real.log ((c : ℝ) - (MIN_INTERACTIONS : ℝ) + 1) := by
    linarith
  have hinv : 0 < 1 / (1 + Real.log ((c : ℝ) - (MIN_INTERACTIONS : ℝ) + 1)) :=
    by positivity
  have hle :
      MAX_NCF_WEIGHT *
          (1 - 1 / (1 + Real.log ((c : ℝ) - (MIN_INTERACTIONS : ℝ) + 1))) ≤
        MAX_NCF_WEIGHT := by
    have h1 : 1 - 1 / (1 + Real.log ((c : ℝ) - (MIN_INTERACTIONS : ℝ) + 1)) ≤ 1 := by
      linarith
    have hM : (0 : ℝ) < MAX_NCF_WEIGHT := by norm_num [MAX_NCF_WEIGHT]
    nlinarith
  have hnlt : ¬ c < MIN_INTERACTIONS := Nat.not_lt.mpr h
  simp only [ncfWeightOfCount, hnlt, if_false]
  exact min_eq_left hle

theorem ncfWeightOfCount_nonneg (c : ℕ) : 0 ≤ ncfWeightOfCount c := by
  by_cases h : c < MIN_INTERACTIONS
  · simp [ncfWeightOfCount_of_lt h]
  · have h5 : MIN_INTERACTIONS ≤ c := Nat.not_lt.mp h
    rw [ncfWeightOfCount_eq_of_le h5]
    have hx : (1 : ℝ) ≤ (c : ℝ) - (MIN_INTERACTIONS : ℝ) + 1 := by
      have : (MIN_INTERACTIONS : ℝ) ≤ (c : ℝ) := by exact_mod_cast h5
      linarith
    have hlog : 0 ≤ Real.log ((c : ℝ) - (MIN_INTERACTIONS : ℝ) + 1) :=
      Real.log_nonneg hx
    have hden : (0 : ℝ) < 1 + Real.log ((c : ℝ) - (MIN_INTERACTIONS : ℝ) + 1) := by
      linarith
    have hinvle : 1 / (1 + Real.log ((c : ℝ) - (MIN_INTERACTIONS : ℝ) + 1)) ≤ 1 := by
      rw [div_le_one hden]; linarith
    have hM : (0 : ℝ) ≤ MAX_NCF_WEIGHT := by norm_num [MAX_NCF_WEIGHT]
    nlinarith

theorem ncfWeightOfCount_le_max (c : ℕ) : ncfWeightOfCount c ≤ MAX_NCF_WEIGHT := by
  by_cases h : c < MIN_INTERACTIONS
  · simp [ncfWeightOfCount_of_lt h]; norm_num [MAX_NCF_WEIGHT]
  · simp only [ncfWeightOfCount, h, if_false]
    exact min_le_right _ _

theorem ncfWeightOfCount_pos {c : ℕ} (h : MIN_INTERACTIONS + 1 ≤ c) :
    0 < ncfWeightOfCount c := by
  have h5 : MIN_INTERACTIONS ≤ c := le_trans (Nat.le_succ _) h
  rw [ncfWeightOfCount_eq_of_le h5]
  have hx : (2 : ℝ) ≤ (c : ℝ) - (MIN_INTERACTIONS : ℝ) + 1 := by
    have : ((MIN_INTERACTIONS + 1 : ℕ) : ℝ) ≤ (c : ℝ) := by exact_mod_cast h
    push_cast at this
    linarith
  have hlog : 0 < Real.log ((c : ℝ) - (MIN_INTERACTIONS : ℝ) + 1) :=
    Real.log_pos (by linarith)
  have hden : (1 : ℝ) < 1 + Real.log ((c : ℝ) - (MIN_INTERACTIONS : ℝ) + 1) := by
    linarith
  have hinv : 1 / (1 + Real.log ((c : ℝ) - (MIN_INTERACTIONS : ℝ) + 1)) < 1 := by
    rw [div_lt_one (by linarith)]; linarith
  have hM : (0 : ℝ) < MAX_NCF_WEIGHT := by norm_num [MAX_NCF_WEIGHT]
  nlinarith

theorem ncfWeightOfCount_strictMono {c c2 : ℕ} (h5 : MIN_INTERACTIONS ≤ c)
    (hlt : c < c2) : ncfWeightOfCount c < ncfWeightOfCount c2 := by
  have h5b : MIN_INTERACTIONS ≤ c2 := le_trans h5 (Nat.le_of_lt hlt)
  rw [ncfWeightOfCount_eq_of_le h5, ncfWeightOfCount_eq_of_le h5b]
  set u : ℝ := (c : ℝ) - (MIN_INTERACTIONS : ℝ) + 1 with hu
  set v : ℝ := (c2 : ℝ) - (MIN_INTERACTIONS : ℝ) + 1 with hv
  have hu1 : (1 : ℝ) ≤ u := by
    have : (MIN_INTERACTIONS : ℝ) ≤ (c : ℝ) := by exact_mod_cast h5
    simp only [hu]; linarith
  have huv : u < v := by
    have : (c : ℝ) < (c2 : ℝ) := by exact_mod_cast hlt
    simp only [hu, hv]; linarith
  have hlogs : Real.log u < Real.log v := Real.log_lt_log (by linarith) huv
  have hlu : 0 ≤ Real.log u := Real.log_nonneg hu1
  have hd1 : (0 : ℝ) < 1 + Real.log u := by linarith
  have hd2 : 1 + Real.log u < 1 + Real.log v := by linarith
  have hinv : 1 / (1 + Real.log v) < 1 / (1 + Real.log u) :=
    one_div_lt_one_div_of_lt hd1 hd2
  have hM : (0 : ℝ) < MAX_NCF_WEIGHT := by norm_num [MAX_NCF_WEIGHT]
  nlinarith

-- ==========================================
-- C1
-- ==========================================

/-- C1: `ncf_weight` looks up the user's interaction count (default 0) and
maps it through `ncfWeightOfCount`, which is 0 below the minimum threshold 5,
strictly positive from count 6 onward, strictly increasing from the threshold
on, and never exceeds the cap 0.65.  (This is the amended claim: at count
exactly 5 the value is still 0, see the counterexample.) -/
theorem ncf_weight_spec (m : LoomNCF) (user_id : String) (c c2 : ℕ) :
    ncf_weight m user_id =
        ncfWeightOfCount ((alookup user_id m.user_interaction_counts).getD 0) ∧
      (c < MIN_INTERACTIONS → ncfWeightOfCount c = 0) ∧
      (MIN_INTERACTIONS + 1 ≤ c → 0 < ncfWeightOfCount c) ∧
      (MIN_INTERACTIONS ≤ c → c < c2 →
        ncfWeightOfCount c < ncfWeightOfCount c2) ∧
      ncfWeightOfCount c ≤ MAX_NCF_WEIGHT := by
  refine ⟨rfl, fun h => ncfWeightOfCount_of_lt h, fun h => ncfWeightOfCount_pos h,
    fun h5 hlt => ncfWeightOfCount_strictMono h5 hlt, ncfWeightOfCount_le_max c⟩

/-- C1 witness: at counts 6 and 7 the weight is positive and strictly grows,
at count 4 it is 0, and it stays below the cap. -/
theorem ncf_weight_spec_witness :
    ncfWeightOfCount 4 = 0 ∧ 0 < ncfWeightOfCount 6 ∧
      ncfWeightOfCount 6 < ncfWeightOfCount 7 ∧
      ncfWeightOfCount 6 ≤ MAX_NCF_WEIGHT := by
  refine ⟨(ncf_weight_spec ⟨0, 0, 0, [], [], [], [], [], 0, []⟩ "u" 4 5).2.1
      (by norm_num [MIN_INTERACTIONS]),
    (ncf_weight_spec ⟨0, 0, 0, [], [], [], [], [], 0, []⟩ "u" 6 7).2.2.1
      (by norm_num [MIN_INTERACTIONS]),
    (ncf_weight_spec ⟨0, 0, 0, [], [], [], [], [], 0, []⟩ "u" 6 7).2.2.2.1
      (by norm_num [MIN_INTERACTIONS]) (by norm_num),
    (ncf_weight_spec ⟨0, 0, 0, [], [], [], [], [], 0, []⟩ "u" 6 7).2.2.2.2⟩

/-- C1 counterexample: a user whose interaction count is exactly the
threshold 5 still gets `ncf_weight = 0` — the claim's "strictly positive
value from the 5th interaction onward" fails at count 5, because
`log(5 - 5 + 1) = 0` makes the ramp vanish. -/
theorem ncf_weight_at_threshold_counterexample :
    (alookup "u" (LoomNCF.user_interaction_counts
        ⟨32, 0.01, 0.001, [], [], [], [], [], 0, [("u", 5)]⟩)).getD 0 = 5 ∧
      ncf_weight ⟨32, 0.01, 0.001, [], [], [], [], [], 0, [("u", 5)]⟩ "u" = 0 := by
  constructor
  · simp [alookup]
  · have h5 : MIN_INTERACTIONS ≤ 5 := by norm_num [MIN_INTERACTIONS]
    have := ncfWeightOfCount_eq_of_le h5
    simp only [ncf_weight]
    have hl : alookup "u" [("u", 5)] = some 5 := by simp [alookup]
    rw [show (alookup "u" (LoomNCF.user_interaction_counts
        ⟨32, 0.01, 0.001, [], [], [], [], [], 0, [("u", 5)]⟩)).getD 0 = 5 by
      simp [alookup]]
    rw [this]
    norm_num [MIN_INTERACTIONS, Real.log_one]

-- ==========================================
-- PERSISTENCE  (to_dict / from_dict)
-- ==========================================

/-- The model snapshot `LoomNCF.to_dict` builds.  The numpy `np.save` +
base64 encoding (`enc`) and its inverse (`dec`) are a lossless round trip on
array contents, so arrays are carried directly; the `saved_at` timestamp
string is irrelevant to every consumer and omitted. -/
structure Snapshot where
  embedding_dim : ℕ
  lr : ℝ
  reg : ℝ
  W1 : List (List ℝ)
  b1 : List ℝ
  W2 : List ℝ
  b2 : ℝ
  user_embeddings : List (String × List ℝ)
  post_embeddings : List (String × List ℝ)
  user_interaction_counts : List (String × ℕ)

/-- `LoomNCF.to_dict`. -/
def to_dict (m : LoomNCF) : Snapshot :=
  ⟨m.embedding_dim, m.lr, m.reg, m.W1, m.b1, m.W2, m.b2,
   m.user_embeddings, m.post_embeddings, m.user_interaction_counts⟩

/-- `LoomNCF.from_dict`: constructs a model from the stored
`embedding_dim`/`lr`/`reg` (the constructor's random parameter
initialisation is immediately overwritten) and installs every decoded array
and the interaction counts verbatim — there is no validation of array
shapes against `embedding_dim`. -/
def from_dict (s : Snapshot) : LoomNCF :=
  ⟨s.embedding_dim, s.lr, s.reg, s.user_embeddings, s.post_embeddings,
   s.W1, s.b1, s.W2, s.b2, s.user_interaction_counts⟩

/-- Structural consistency of a model state: every stored array has the
shape the configured `embedding_dim` declares. -/
def wellShaped (m : LoomNCF) : Prop :=
  m.W1.length = 2 * m.embedding_dim ∧
  (∀ row ∈ m.W1, row.length = m.embedding_dim) ∧
  m.b1.length = m.embedding_dim ∧
  m.W2.length = m.embedding_dim ∧
  (∀ e ∈ m.user_embeddings, e.2.length = m.embedding_dim) ∧
  (∀ e ∈ m.post_embeddings, e.2.length = m.embedding_dim)

theorem predict_of_present {m : LoomNCF} {uid pid : String}
    {vu vp : List ℝ} (fU fP : List ℝ)
    (hu : alookup uid m.user_embeddings = some vu)
    (hp : alookup pid m.post_embeddings = some vp) :
    predict m uid pid fU fP = (_forward m vu vp, m) := by
  simp [predict, getEmb, hu, hp]

-- ==========================================
-- C2
-- ==========================================

/-- C2 (amended): for a user id and post id whose embeddings are already
present, `predict` leaves the model state unchanged and its score does not
depend on the drawn fresh embeddings, so repeated calls on the same state
return the same score.  (For unseen ids the claim fails: `predict` inserts
fresh embeddings — see the counterexample.) -/
theorem predict_pure_of_present (m : LoomNCF) (uid pid : String)
    (fU fP fU2 fP2 : List ℝ)
    (hu : (alookup uid m.user_embeddings).isSome)
    (hp : (alookup pid m.post_embeddings).isSome) :
    (predict m uid pid fU fP).2 = m ∧
      (predict m uid pid fU fP).1 = (predict m uid pid fU2 fP2).1 := by
  obtain ⟨vu, hvu⟩ := Option.isSome_iff_exists.mp hu
  obtain ⟨vp, hvp⟩ := Option.isSome_iff_exists.mp hp
  rw [predict_of_present fU fP hvu hvp, predict_of_present fU2 fP2 hvu hvp]
  exact ⟨rfl, rfl⟩

/-- C2 witness: a concrete model that already holds embeddings for `"u"` and
`"p"`; `predict` is a pure read on it. -/
theorem predict_pure_of_present_witness :
    (predict ⟨1, 0.01, 0.001, [("u", [1])], [("p", [2])],
        [[0], [0]], [0], [0], 0, []⟩ "u" "p" [9] [9]).2 =
      ⟨1, 0.01, 0.001, [("u", [1])], [("p", [2])],
        [[0], [0]], [0], [0], 0, []⟩ ∧
    (predict ⟨1, 0.01, 0.001, [("u", [1])], [("p", [2])],
        [[0], [0]], [0], [0], 0, []⟩ "u" "p" [9] [9]).1 =
      (predict ⟨1, 0.01, 0.001, [("u", [1])], [("p", [2])],
        [[0], [0]], [0], [0], 0, []⟩ "u" "p" [7] [8]).1 :=
  predict_pure_of_present _ "u" "p" [9] [9] [7] [8]
    (by simp [alookup]) (by simp [alookup])

/-- C2 counterexample: on a model with no stored embeddings, a single
`predict` call for a never-seen user id mutates the model state — the fresh
user embedding is inserted into `user_embeddings`, so the state after the
call differs from the state before it. -/
theorem predict_side_effect_counterexample :
    (predict ⟨1, 0.01, 0.001, [], [], [[0], [0]], [0], [0], 0, []⟩
        "u" "p" [1] [1]).2.user_embeddings ≠
      LoomNCF.user_embeddings
        ⟨1, 0.01, 0.001, [], [], [[0], [0]], [0], [0], 0, []⟩ := by
  simp [predict, getEmb, alookup]

-- ==========================================
-- C3
-- ==========================================

/-- C3 (amended): `from_dict` performs no structural validation.  It installs
the snapshot's arrays and counts verbatim, even for a snapshot whose array
shapes are inconsistent with its declared `embedding_dim` — rather than
failing, the restore silently produces a malformed model (witnessed here by
a snapshot declaring dimension 2 whose `W1` is a 1×1 matrix). -/
theorem from_dict_no_validation :
    (∀ s : Snapshot,
      (from_dict s).embedding_dim = s.embedding_dim ∧
      (from_dict s).W1 = s.W1 ∧ (from_dict s).b1 = s.b1 ∧
      (from_dict s).W2 = s.W2 ∧ (from_dict s).b2 = s.b2 ∧
      (from_dict s).user_embeddings = s.user_embeddings ∧
      (from_dict s).post_embeddings = s.post_embeddings ∧
      (from_dict s).user_interaction_counts = s.user_interaction_counts) ∧
    ¬ wellShaped (from_dict ⟨2, 0.01, 0.001, [[0]], [0], [0], 0,
        [("u", [0])], [], []⟩) := by
  refine ⟨fun s => ⟨rfl, rfl, rfl, rfl, rfl, rfl, rfl, rfl⟩, ?_⟩
  intro h
  have h1 := h.1
  simp [from_dict] at h1

/-- C3 counterexample: restoring the structurally inconsistent snapshot
(declared `embedding_dim = 2`, stored `W1` of shape 1×1, a stored user
embedding of length 1) succeeds and returns exactly the inconsistent model,
contradicting the claim that such a restore fails with a fatal error rather
than installing the snapshot. -/
theorem from_dict_installs_inconsistent_counterexample :
    from_dict ⟨2, 0.01, 0.001, [[0]], [0], [0], 0, [("u", [0])], [], []⟩ =
        ⟨2, 0.01, 0.001, [("u", [0])], [], [[0]], [0], [0], 0, []⟩ ∧
      ¬ wellShaped
        (from_dict ⟨2, 0.01, 0.001, [[0]], [0], [0], 0, [("u", [0])], [], []⟩) := by
  refine ⟨rfl, ?_⟩
  intro h
  have h1 := h.1
  simp [from_dict] at h1

-- ==========================================
-- C4
-- ==========================================

/-- C4: restoring a model from its own snapshot (`from_dict (to_dict m)`)
reproduces exactly the `predict` score of the original model for every
(user, post) pair whose embeddings were present at snapshot time, whatever
fresh random draws either call is handed. -/
theorem roundtrip_predict (m : LoomNCF) (uid pid : String)
    (fU fP fU2 fP2 : List ℝ)
    (hu : (alookup uid m.user_embeddings).isSome)
    (hp : (alookup pid m.post_embeddings).isSome) :
    (predict (from_dict (to_dict m)) uid pid fU fP).1 =
      (predict m uid pid fU2 fP2).1 := by
  obtain ⟨vu, hvu⟩ := Option.isSome_iff_exists.mp hu
  obtain ⟨vp, hvp⟩ := Option.isSome_iff_exists.mp hp
  have hid : from_dict (to_dict m) = m := rfl
  rw [hid, predict_of_present fU fP hvu hvp, predict_of_present fU2 fP2 hvu hvp]

/-- C4 witness: the snapshot round trip reproduces the score on a concrete
model holding embeddings for `"u"` and `"p"`. -/
theorem roundtrip_predict_witness :
    (predict (from_dict (to_dict ⟨1, 0.01, 0.001, [("u", [1])], [("p", [2])],
          [[1], [1]], [0], [1], 0, [("u", 3)]⟩)) "u" "p" [5] [6]).1 =
      (predict ⟨1, 0.01, 0.001, [("u", [1])], [("p", [2])],
          [[1], [1]], [0], [1], 0, [("u", 3)]⟩ "u" "p" [7] [8]).1 :=
  roundtrip_predict _ "u" "p" [5] [6] [7] [8]
    (by simp [alookup]) (by simp [alookup])

-- ==========================================
-- TAG AFFINITY  (build_user_affinity)
-- ==========================================

/-- One tag entry `{label, confidence}` of a post's `mlTags` structure. -/
structure MLTag where
  label : String
  confidence : ℝ

/-- A post's tag structure `{category -> [{label, confidence}]}`. -/
abbrev TagStruct := List (String × List MLTag)

/-- `{category -> {label -> weight}}`, the shape `build_user_affinity`
returns. -/
abbrev Affinity := List (String × List (String × ℝ))

/-- `{label -> times seen}`. -/
abbrev SeenCounts := List (String × ℕ)

/-- One entry of the interaction history: `{"weight": w, "tags": {...}}`
(`weight` defaults to 1.0, `confidence` to 0.5 when absent; entries that are
not dicts with a label are skipped by the Python code and cannot be
expressed in this typed history). -/
structure Interaction where
  weight : ℝ
  tags : TagStruct

/-- `affinity[category][tag["label"]] += tag.get("confidence", 0.5) * weight`
on the nested defaultdict. -/
def addToAffinity (aff : Affinity) (cat lab : String) (c : ℝ) : Affinity :=
  updAssoc cat (fun cmap => updAssoc lab (· + c) 0 cmap) [] aff

/-- The accumulation loop of `build_user_affinity`, before normalization. -/
def accum_affinity (history : List Interaction) : Affinity :=
  history.foldl
    (fun aff inter =>
      inter.tags.foldl
        (fun aff2 ct =>
          ct.2.foldl
            (fun aff3 tg =>
              addToAffinity aff3 ct.1 tg.label (tg.confidence * inter.weight))
            aff2)
        aff)
    []

/-- The normalization step: divide a category's bucket by its total when the
total is positive, otherwise leave the values as they are. -/
def normalizeCat (cmap : List (String × ℝ)) : List (String × ℝ) :=
  let total := (cmap.map (·.2)).sum
  if 0 < total then cmap.map (fun lv => (lv.1, lv.2 / total)) else cmap

/-- `build_user_affinity`. -/
def build_user_affinity (history : List Interaction) : Affinity :=
  (accum_affinity history).map (fun cm => (cm.1, normalizeCat cm.2))

theorem sum_map_snd_div (l : List (String × ℝ)) (t : ℝ) :
    ((l.map (fun lv => (lv.1, lv.2 / t))).map (·.2)).sum =
      (l.map (·.2)).sum / t := by
  induction l with
  | nil => simp
  | cons hd tl ih => simp only [List.map_cons, List.sum_cons, ih, add_div]

-- ==========================================
-- C7
-- ==========================================

/-- C7 (amended): in `build_user_affinity`, every category whose accumulated
total is strictly positive is normalized so its weights sum to exactly 1.
(The unamended claim fails: a category can be present with zero total, e.g.
from a tag with confidence 0.0, and is then left unnormalized — see the
counterexample.) -/
theorem build_user_affinity_normalized (history : List Interaction)
    (c : String) (raw : List (String × ℝ))
    (hmem : (c, raw) ∈ accum_affinity history)
    (hpos : 0 < (raw.map (·.2)).sum) :
    (c, normalizeCat raw) ∈ build_user_affinity history ∧
      ((normalizeCat raw).map (·.2)).sum = 1 := by
  constructor
  · exact List.mem_map_of_mem (fun cm => (cm.1, normalizeCat cm.2)) hmem
  · simp only [normalizeCat, hpos, if_pos]
    rw [sum_map_snd_div]
    exact div_self (ne_of_gt hpos)

/-- C7 witness: a one-interaction history with a single confidence-1 tag;
the accumulated `"style"` bucket has positive total and normalizes to sum
1. -/
theorem build_user_affinity_normalized_witness :
    ("style", [("x", (1 : ℝ) * 1)]) ∈
        accum_affinity [⟨1, [("style", [⟨"x", 1⟩])]⟩] ∧
      0 < (([("x", (1 : ℝ) * 1)]).map (·.2)).sum ∧
      ((normalizeCat [("x", (1 : ℝ) * 1)]).map (·.2)).sum = 1 := by
  have hmem : ("style", [("x", (1 : ℝ) * 1)]) ∈
      accum_affinity [⟨1, [("style", [⟨"x", 1⟩])]⟩] := by
    simp [accum_affinity, addToAffinity, updAssoc]
  have hpos : 0 < (([("x", (1 : ℝ) * 1)]).map (·.2)).sum := by norm_num
  exact ⟨hmem, hpos,
    (build_user_affinity_normalized [⟨1, [("style", [⟨"x", 1⟩])]⟩]
      "style" [("x", (1 : ℝ) * 1)] hmem hpos).2⟩

/-- C7 counterexample: a history entry whose single tag has confidence 0.0
(a valid confidence) makes the `"style"` category present in the built
affinity with a zero total, and its weights sum to 0, not 1 — refuting both
"every present category sums to 1" and "no category is ever present with
zero total". -/
theorem build_user_affinity_zero_total_counterexample :
    ("style", [("x", (0 : ℝ) * 1 + 0 * 1)]) ∈
        build_user_affinity [⟨1, [("style", [⟨"x", 0⟩, ⟨"x", 0⟩])]⟩] ∧
      (([("x", (0 : ℝ) * 1 + 0 * 1)]).map (·.2)).sum ≠ 1 := by
  constructor
  · have : ¬ (0 : ℝ) < (0 : ℝ) * 1 + 0 * 1 + 0 := by norm_num
    simp [build_user_affinity, accum_affinity, addToAffinity, updAssoc,
      normalizeCat]
  · norm_num

-- ==========================================
-- SCORING  (compute_tag_score / compute_hybrid_score)
-- ==========================================

open scoped Classical

/-- Python `round(x, 4)`.  Rounding to the nearest multiple of `1e-4`;
Python resolves exact half-way ties to even, which no property here ever
touches, so round-half-up is used. -/
def round4 (x : ℝ) : ℝ := ((round (x * 10000) : ℤ) : ℝ) / 10000

theorem round4_mono {x y : ℝ} (h : x ≤ y) : round4 x ≤ round4 y := by
  unfold round4
  have hr : round (x * 10000) ≤ round (y * 10000) := by
    rw [round_eq, round_eq]
    exact Int.floor_le_floor (by linarith)
  have hr2 : ((round (x * 10000) : ℤ) : ℝ) ≤ ((round (y * 10000) : ℤ) : ℝ) := by
    exact_mod_cast hr
  linarith

theorem round4_zero : round4 0 = 0 := by
  simp [round4]

theorem round4_one : round4 1 = 1 := by
  unfold round4
  have h1 : (1 : ℝ) * 10000 = ((10000 : ℤ) : ℝ) := by norm_num
  rw [h1, round_intCast]
  norm_num

theorem round4_nonneg {x : ℝ} (h : 0 ≤ x) : 0 ≤ round4 x := by
  have := round4_mono h
  rwa [round4_zero] at this

theorem round4_le_one {x : ℝ} (h : x ≤ 1) : round4 x ≤ 1 := by
  have := round4_mono h
  rwa [round4_one] at this

theorem CATEGORY_WEIGHTS_nonneg (c : String) : 0 ≤ CATEGORY_WEIGHTS c := by
  unfold CATEGORY_WEIGHTS
  split_ifs <;> norm_num

/-- Per-tag contribution inside `compute_tag_score`:
`conf * (0.6 + 0.4 * aff) + novelty`, decayed by `0.5 ** times_seen` when the
label was already seen. -/
def tag_t_score (cat_affinity : List (String × ℝ)) (seen : SeenCounts)
    (tg : MLTag) : ℝ :=
  let aff := (alookup tg.label cat_affinity).getD 0
  let novelty : ℝ := if alookup tg.label cat_affinity = none then 0.08 else 0
  let t := tg.confidence * (0.6 + 0.4 * aff) + novelty
  let times := (alookup tg.label seen).getD 0
  if 0 < times then t * TAG_DECAY_FACTOR ^ times else t

/-- One category's averaged tag score (`cat_score /= len(tags)`). -/
def cat_tag_score (user_affinity : Affinity) (seen : SeenCounts)
    (cat : String) (tags : List MLTag) : ℝ :=
  ((tags.map (tag_t_score ((alookup cat user_affinity).getD []) seen)).sum) /
    (tags.length : ℝ)

/-- `compute_tag_score`; the `random.uniform(0, exploration)` term is the
`explorationDraw` parameter. -/
def compute_tag_score (post_tags : TagStruct) (user_affinity : Affinity)
    (seen : SeenCounts) (explorationDraw : ℝ) : ℝ :=
  round4
    ((post_tags.map (fun ct =>
        if CATEGORY_WEIGHTS ct.1 = 0 ∨ ct.2 = [] then 0
        else CATEGORY_WEIGHTS ct.1 * cat_tag_score user_affinity seen ct.1 ct.2)).sum
      + explorationDraw)

/-- A candidate post, as the service reads and mutates it: identifier,
creator identifier, `mlTags`, and the fields `recommend` assigns
(`score`, `ncf_weight`, `is_serendipity`), absent until written. -/
structure Post where
  id : String
  artistId : String
  mlTags : TagStruct
  score : Option ℝ
  ncfWeight : Option ℝ
  isSerendipity : Option Bool

/-- Creator trust statistics: `bot_score` plus the three behavioral
features read out of `behavior_features` (after float coercion, which this
typed model assumes succeeded; failed coercions default to 0.0, i.e. the
same as `defaultStats`). -/
structure CreatorStats where
  bot_score : ℝ
  fastReplyPct : ℝ
  circadianFlatness : ℝ
  intervalRegularity : ℝ

/-- Stats for a creator absent from `creator_behavior_stats`: every field
defaults to 0.0. -/
def defaultStats : CreatorStats := ⟨0, 0, 0, 0⟩

/-- `min(1.0, max(0.0, x))`. -/
def clip01 (x : ℝ) : ℝ := min 1 (max 0 x)

/-- The weighted suspicion index of `compute_hybrid_score`. -/
def suspiciousness (s : CreatorStats) : ℝ :=
  0.60 * clip01 s.bot_score + 0.15 * clip01 s.fastReplyPct +
    0.15 * clip01 s.circadianFlatness + 0.10 * clip01 s.intervalRegularity

/-- The behavior (trust) factor:
`min(1.0, max(1.0 - MAX_BEHAVIOR_PENALTY, 1.0 - MAX_BEHAVIOR_PENALTY * suspiciousness))`. -/
def behavior_factor (s : CreatorStats) : ℝ :=
  min 1 (max (1 - MAX_BEHAVIOR_PENALTY)
    (1 - MAX_BEHAVIOR_PENALTY * suspiciousness s))

/-- `FOLLOW_BOOST if followed_artist_ids and artist_id and artist_id in
followed_artist_ids else 0.0`. -/
def followedBoost (artistId : String) (followed : List String) : ℝ :=
  if artistId ≠ "" ∧ artistId ∈ followed then FOLLOW_BOOST else 0

/-- `round(min(1.0, (base + followed_boost) * behavior_factor), 4)` — the
shape of every return of `compute_hybrid_score`. -/
def finalScore (base boost bf : ℝ) : ℝ := round4 (min 1 ((base + boost) * bf))

/-- `compute_hybrid_score`.  Besides the score it returns the model state,
because the `predict` it makes in the blended branch can insert missing
embeddings.  `explorationDraw` is the uniform draw inside
`compute_tag_score`; `freshU`/`freshP` feed `predict`. -/
def compute_hybrid_score (m : LoomNCF) (user_id : Option String) (post : Post)
    (user_affinity : Affinity) (seen : SeenCounts) (explorationDraw : ℝ)
    (followed_artist_ids : List String)
    (creator_behavior_stats : List (String × CreatorStats))
    (freshU freshP : List ℝ) : ℝ × LoomNCF :=
  let tag_score := compute_tag_score post.mlTags user_affinity seen explorationDraw
  let boost := followedBoost post.artistId followed_artist_ids
  let bf := behavior_factor
    ((alookup post.artistId creator_behavior_stats).getD defaultStats)
  match user_id with
  | none => (finalScore tag_score boost bf, m)
  | some uid =>
      if uid = "" ∨ post.id = "" then (finalScore tag_score boost bf, m)
      else if ncf_weight m uid = 0 then (finalScore tag_score boost bf, m)
      else
        (finalScore
            (ncf_weight m uid * (predict m uid post.id freshU freshP).1 +
              (1 - ncf_weight m uid) * tag_score)
            boost bf,
          (predict m uid post.id freshU freshP).2)

-- ==========================================
-- BOUNDS HELPERS FOR THE SCORER
-- ==========================================

theorem sigmoid_pos (z : ℝ) : 0 < sigmoid z := by
  unfold sigmoid
  have := Real.exp_pos (-z)
  positivity

theorem sigmoid_le_one (z : ℝ) : sigmoid z ≤ 1 := by
  unfold sigmoid
  have h := Real.exp_pos (-z)
  rw [div_le_one (by linarith)]
  linarith

theorem _forward_bounds (m : LoomNCF) (a b : List ℝ) :
    0 ≤ _forward m a b ∧ _forward m a b ≤ 1 := by
  unfold _forward
  exact ⟨le_of_lt (sigmoid_pos _), sigmoid_le_one _⟩

theorem predict_score_bounds (m : LoomNCF) (uid pid : String)
    (fU fP : List ℝ) :
    0 ≤ (predict m uid pid fU fP).1 ∧ (predict m uid pid fU fP).1 ≤ 1 := by
  unfold predict
  exact _forward_bounds m _ _

theorem tag_t_score_nonneg {cat_affinity : List (String × ℝ)}
    (seen : SeenCounts) {tg : MLTag} (hc : 0 ≤ tg.confidence)
    (haff : ∀ lw ∈ cat_affinity, 0 ≤ lw.2) :
    0 ≤ tag_t_score cat_affinity seen tg := by
  simp only [tag_t_score]
  have haffv : 0 ≤ (alookup tg.label cat_affinity).getD 0 := by
    cases h : alookup tg.label cat_affinity with
    | none => simp
    | some v => simpa using haff _ (alookup_mem h)
  have hmul : 0 ≤ tg.confidence *
      (0.6 + 0.4 * (alookup tg.label cat_affinity).getD 0) :=
    mul_nonneg hc (by linarith)
  have hdecay : (0 : ℝ) ≤ TAG_DECAY_FACTOR ^ (alookup tg.label seen).getD 0 := by
    have h05 : (0 : ℝ) ≤ TAG_DECAY_FACTOR := by norm_num [TAG_DECAY_FACTOR]
    positivity
  have t1 : 0 ≤ tg.confidence *
      (0.6 + 0.4 * (alookup tg.label cat_affinity).getD 0) + (0.08 : ℝ) := by
    linarith
  have t0 : 0 ≤ tg.confidence *
      (0.6 + 0.4 * (alookup tg.label cat_affinity).getD 0) + (0 : ℝ) := by
    linarith
  have p1 := mul_nonneg t1 hdecay
  have p0 := mul_nonneg t0 hdecay
  split_ifs <;> linarith [p1, p0]

theorem cat_tag_score_nonneg (user_affinity : Affinity) (seen : SeenCounts)
    (cat : String) (tags : List MLTag)
    (hc : ∀ tg ∈ tags, 0 ≤ tg.confidence)
    (haff : ∀ cm ∈ user_affinity, ∀ lw ∈ cm.2, 0 ≤ lw.2) :
    0 ≤ cat_tag_score user_affinity seen cat tags := by
  unfold cat_tag_score
  have hbucket : ∀ lw ∈ (alookup cat user_affinity).getD [], 0 ≤ lw.2 := by
    cases h : alookup cat user_affinity with
    | none => simp
    | some cmap =>
        intro lw hlw
        simp only [Option.getD_some] at hlw
        exact haff _ (alookup_mem h) lw hlw
  refine div_nonneg (List.sum_nonneg ?_) (by positivity)
  intro x hx
  obtain ⟨tg, htg, rfl⟩ := List.mem_map.mp hx
  exact tag_t_score_nonneg seen (hc tg htg) hbucket

theorem compute_tag_score_nonneg (post_tags : TagStruct)
    (user_affinity : Affinity) (seen : SeenCounts) {draw : ℝ}
    (hdraw : 0 ≤ draw)
    (hc : ∀ ct ∈ post_tags, ∀ tg ∈ ct.2, 0 ≤ tg.confidence)
    (haff : ∀ cm ∈ user_affinity, ∀ lw ∈ cm.2, 0 ≤ lw.2) :
    0 ≤ compute_tag_score post_tags user_affinity seen draw := by
  unfold compute_tag_score
  apply round4_nonneg
  have hsum : 0 ≤ (post_tags.map (fun ct =>
      if CATEGORY_WEIGHTS ct.1 = 0 ∨ ct.2 = [] then 0
      else CATEGORY_WEIGHTS ct.1 * cat_tag_score user_affinity seen ct.1 ct.2)).sum := by
    apply List.sum_nonneg
    intro x hx
    obtain ⟨ct, hct, rfl⟩ := List.mem_map.mp hx
    split_ifs with hskip
    · exact le_refl 0
    · exact mul_nonneg (CATEGORY_WEIGHTS_nonneg ct.1)
        (cat_tag_score_nonneg user_affinity seen ct.1 ct.2
          (fun tg htg => hc ct hct tg htg) haff)
  linarith

theorem behavior_factor_bounds (s : CreatorStats) :
    1 - MAX_BEHAVIOR_PENALTY ≤ behavior_factor s ∧ behavior_factor s ≤ 1 := by
  unfold behavior_factor
  constructor
  · exact le_min (by norm_num [MAX_BEHAVIOR_PENALTY]) (le_max_left _ _)
  · exact min_le_left _ _

theorem followedBoost_nonneg (artistId : String) (followed : List String) :
    0 ≤ followedBoost artistId followed := by
  unfold followedBoost
  split_ifs <;> norm_num [FOLLOW_BOOST]

theorem finalScore_in_unit {base boost bf : ℝ} (hb : 0 ≤ base)
    (hboost : 0 ≤ boost) (hbf : 0 ≤ bf) :
    0 ≤ finalScore base boost bf ∧ finalScore base boost bf ≤ 1 := by
  unfold finalScore
  have hy : 0 ≤ (base + boost) * bf := mul_nonneg (by linarith) hbf
  exact ⟨round4_nonneg (le_min (by norm_num) hy),
    round4_le_one (min_le_left _ _)⟩

-- ==========================================
-- C9
-- ==========================================

/-- C9: when a creator's stats report bot-probability 1.0 and all three
auxiliary behavioral features equal 1.0, the suspicion index is exactly 1
and the trust factor the hybrid scorer applies is exactly
`1 - MAX_BEHAVIOR_PENALTY = 0.78`. -/
theorem trust_factor_cap :
    suspiciousness ⟨1, 1, 1, 1⟩ = 1 ∧
      behavior_factor ⟨1, 1, 1, 1⟩ = 1 - MAX_BEHAVIOR_PENALTY ∧
      behavior_factor ⟨1, 1, 1, 1⟩ = 0.78 := by
  have hclip : clip01 1 = 1 := by
    unfold clip01
    rw [max_eq_right (by norm_num), min_eq_right (by norm_num)]
  have hs : suspiciousness ⟨1, 1, 1, 1⟩ = 1 := by
    unfold suspiciousness
    simp only [hclip]
    norm_num
  have hbf : behavior_factor ⟨1, 1, 1, 1⟩ = 1 - MAX_BEHAVIOR_PENALTY := by
    unfold behavior_factor
    rw [hs]
    rw [show (1 : ℝ) - MAX_BEHAVIOR_PENALTY * 1 = 1 - MAX_BEHAVIOR_PENALTY by ring,
      max_self, min_eq_right (by norm_num [MAX_BEHAVIOR_PENALTY])]
  exact ⟨hs, hbf, by rw [hbf]; norm_num [MAX_BEHAVIOR_PENALTY]⟩

-- ==========================================
-- C5
-- ==========================================

/-- C5: for every valid input — tag confidences in [0,1], affinity weights
in [0,1], arbitrary trust features and seen-tag counts, an exploration draw
in `[0, exploration]` with factor in [0,1], follow boost applied or not —
the hybrid score lies in [0,1]. -/
theorem hybrid_score_in_unit (m : LoomNCF) (user_id : Option String)
    (post : Post) (user_affinity : Affinity) (seen : SeenCounts)
    (draw exploration : ℝ) (followed : List String)
    (stats : List (String × CreatorStats)) (fU fP : List ℝ)
    (hconf : ∀ ct ∈ post.mlTags, ∀ tg ∈ ct.2,
      0 ≤ tg.confidence ∧ tg.confidence ≤ 1)
    (haff : ∀ cm ∈ user_affinity, ∀ lw ∈ cm.2, 0 ≤ lw.2 ∧ lw.2 ≤ 1)
    (hdraw : 0 ≤ draw ∧ draw ≤ exploration)
    (hexp : 0 ≤ exploration ∧ exploration ≤ 1) :
    0 ≤ (compute_hybrid_score m user_id post user_affinity seen draw
          followed stats fU fP).1 ∧
      (compute_hybrid_score m user_id post user_affinity seen draw
          followed stats fU fP).1 ≤ 1 := by
  have htag : 0 ≤ compute_tag_score post.mlTags user_affinity seen draw :=
    compute_tag_score_nonneg post.mlTags user_affinity seen hdraw.1
      (fun ct hct tg htg => (hconf ct hct tg htg).1)
      (fun cm hcm lw hlw => (haff cm hcm lw hlw).1)
  have hboost := followedBoost_nonneg post.artistId followed
  have hbf := behavior_factor_bounds
    ((alookup post.artistId stats).getD defaultStats)
  have hbf0 : 0 ≤ behavior_factor
      ((alookup post.artistId stats).getD defaultStats) := by
    have : (0 : ℝ) ≤ 1 - MAX_BEHAVIOR_PENALTY := by
      norm_num [MAX_BEHAVIOR_PENALTY]
    linarith [hbf.1]
  cases user_id with
  | none =>
      exact finalScore_in_unit htag hboost hbf0
  | some uid =>
      simp only [compute_hybrid_score]
      split_ifs with h1 h2
      · exact finalScore_in_unit htag hboost hbf0
      · exact finalScore_in_unit htag hboost hbf0
      · have halpha0 : 0 ≤ ncf_weight m uid := ncfWeightOfCount_nonneg _
        have halpha1 : ncf_weight m uid ≤ 1 := by
          have := ncfWeightOfCount_le_max
            ((alookup uid m.user_interaction_counts).getD 0)
          have hM : MAX_NCF_WEIGHT ≤ 1 := by norm_num [MAX_NCF_WEIGHT]
          unfold ncf_weight
          linarith
        have hpr := predict_score_bounds m uid post.id fU fP
        have hbase : 0 ≤ ncf_weight m uid * (predict m uid post.id fU fP).1 +
            (1 - ncf_weight m uid) *
              compute_tag_score post.mlTags user_affinity seen draw := by
          have h1 := mul_nonneg halpha0 hpr.1
          have h2 := mul_nonneg (by linarith : (0:ℝ) ≤ 1 - ncf_weight m uid) htag
          linarith
        exact finalScore_in_unit hbase hboost hbf0

/-- C5 witness: a degenerate but valid input (no tags, empty affinity, zero
draw) on which the hybrid score is within [0,1]. -/
theorem hybrid_score_in_unit_witness :
    0 ≤ (compute_hybrid_score ⟨1, 0.01, 0.001, [], [], [], [], [], 0, []⟩
          none ⟨"p1", "a1", [], none, none, none⟩ [] [] 0 [] [] [] []).1 ∧
      (compute_hybrid_score ⟨1, 0.01, 0.001, [], [], [], [], [], 0, []⟩
          none ⟨"p1", "a1", [], none, none, none⟩ [] [] 0 [] [] [] []).1 ≤ 1 :=
  hybrid_score_in_unit _ none _ [] [] 0 0 [] [] [] []
    (by simp) (by simp) (by norm_num) (by norm_num)

-- ==========================================
-- DIVERSITY & SERENDIPITY
-- ==========================================

/-- The flattened set of labels across all categories of a tag structure
(the `labels` helper inside `tag_similarity`). -/
def labelSet (t : TagStruct) : Finset String :=
  (t.flatMap (fun ct => ct.2.map (·.label))).toFinset

/-- `tag_similarity`: Jaccard similarity of the flattened label sets, 0 when
either set is empty. -/
def tag_similarity (a b : TagStruct) : ℝ :=
  if labelSet a = ∅ ∨ labelSet b = ∅ then 0
  else ((labelSet a ∩ labelSet b).card : ℝ) /
    ((labelSet a ∪ labelSet b).card : ℝ)

theorem tag_similarity_comm (a b : TagStruct) :
    tag_similarity a b = tag_similarity b a := by
  unfold tag_similarity
  rw [Finset.inter_comm, Finset.union_comm]
  by_cases h : labelSet a = ∅ ∨ labelSet b = ∅
  · rw [if_pos h, if_pos (Or.symm h)]
  · rw [if_neg h, if_neg (fun hc => h (Or.symm hc))]

/-- `post.get("score", 0)`. -/
def postScore (p : Post) : ℝ := p.score.getD 0

/-- Stable insertion into a list sorted descending by `key`: the new element
goes after every element whose key is not smaller, which is exactly the
tie-stability of Python `sorted(..., reverse=True)` / `list.sort(...)`. -/
def insertByDesc (key : Post → ℝ) (p : Post) : List Post → List Post
  | [] => [p]
  | q :: rest =>
      if key p < key q then q :: insertByDesc key p rest else p :: q :: rest

/-- Stable descending sort by `key`. -/
def sortByKeyDesc (key : Post → ℝ) : List Post → List Post
  | [] => []
  | p :: rest => insertByDesc key p (sortByKeyDesc key rest)

theorem insertByDesc_perm (key : Post → ℝ) (p : Post) (l : List Post) :
    List.Perm (insertByDesc key p l) (p :: l) := by
  induction l with
  | nil => simp [insertByDesc]
  | cons q rest ih =>
      simp only [insertByDesc]
      split_ifs with h
      · exact (ih.cons q).trans (List.Perm.swap p q rest)
      · exact List.Perm.refl _

theorem sortByKeyDesc_perm (key : Post → ℝ) (l : List Post) :
    List.Perm (sortByKeyDesc key l) l := by
  induction l with
  | nil => exact List.Perm.refl _
  | cons p rest ih =>
      simp only [sortByKeyDesc]
      exact (insertByDesc_perm key p _).trans (ih.cons p)

/-- `seen_tag_counts[tag["label"]] += 1` over every tag of an accepted
post. -/
def bumpSeen (seen : SeenCounts) (tags : TagStruct) : SeenCounts :=
  tags.foldl
    (fun s ct => ct.2.foldl (fun s2 tg => updAssoc tg.label (· + 1) 0 s2) s)
    seen

/-- The greedy selection loop of `assemble_feed`: walk the sorted list, stop
once the feed holds `n` posts, skip a post whose similarity to any already
accepted post exceeds the diversity threshold, and accumulate seen-tag
counts from accepted posts. -/
def greedyLoop (n : ℕ) :
    List Post → List Post → SeenCounts → List Post × SeenCounts
  | [], feed, seen => (feed, seen)
  | p :: rest, feed, seen =>
      if n ≤ feed.length then (feed, seen)
      else if ∃ fp ∈ feed,
          DIVERSITY_THRESHOLD < tag_similarity p.mlTags fp.mlTags then
        greedyLoop n rest feed seen
      else greedyLoop n rest (feed ++ [p]) (bumpSeen seen p.mlTags)

/-- `assemble_feed`. -/
def assemble_feed (scored : List Post) (n : ℕ) : List Post × SeenCounts :=
  greedyLoop n (sortByKeyDesc postScore scored) [] []

/-- Highest similarity of `p` to any feed post, subtracted from 1 (1.0 for
an empty feed), i.e. the sort key of `pick_serendipity`. -/
def dissimilarity (feed : List Post) (p : Post) : ℝ :=
  match feed with
  | [] => 1
  | fp :: rest =>
      1 - (rest.map (fun q => tag_similarity p.mlTags q.mlTags)).foldl max
        (tag_similarity p.mlTags fp.mlTags)

/-- `pick_serendipity`: among posts not already in the feed, take the `n`
most dissimilar to the feed. -/
def pick_serendipity (posts feed : List Post) (n : ℕ) : List Post :=
  let candidates := posts.filter (fun p => !decide (p ∈ feed))
  if candidates = [] then []
  else (sortByKeyDesc (dissimilarity feed) candidates).take n

-- ==========================================
-- C6
-- ==========================================

theorem greedyLoop_pairwise (n : ℕ) :
    ∀ (l feed : List Post) (seen : SeenCounts),
      feed.Pairwise
        (fun a b => tag_similarity a.mlTags b.mlTags ≤ DIVERSITY_THRESHOLD) →
      ((greedyLoop n l feed seen).1).Pairwise
        (fun a b => tag_similarity a.mlTags b.mlTags ≤ DIVERSITY_THRESHOLD)
  | [], feed, seen, h => by simpa [greedyLoop] using h
  | p :: rest, feed, seen, h => by
      simp only [greedyLoop]
      split_ifs with h1 h2
      · exact h
      · exact greedyLoop_pairwise n rest feed seen h
      · refine greedyLoop_pairwise n rest _ _ ?_
        rw [List.pairwise_append]
        refine ⟨h, List.pairwise_singleton _ _, ?_⟩
        intro a ha b hb
        rw [List.mem_singleton] at hb
        subst hb
        push_neg at h2
        rw [tag_similarity_comm]
        exact h2 a ha

/-- C6: any two distinct posts accepted into the personalized slice by
`assemble_feed` have pairwise tag-Jaccard similarity at most the diversity
threshold 0.45, for every scored candidate list and slice size. -/
theorem assemble_feed_diverse (scored : List Post) (n : ℕ) (p q : Post)
    (hp : p ∈ (assemble_feed scored n).1)
    (hq : q ∈ (assemble_feed scored n).1) (hne : p ≠ q) :
    tag_similarity p.mlTags q.mlTags ≤ DIVERSITY_THRESHOLD := by
  unfold assemble_feed at hp hq
  have hpair := greedyLoop_pairwise n (sortByKeyDesc postScore scored) [] []
    List.Pairwise.nil
  have hsym : Symmetric
      (fun a b : Post =>
        tag_similarity a.mlTags b.mlTags ≤ DIVERSITY_THRESHOLD) := by
    intro a b hab
    rwa [tag_similarity_comm]
  exact hpair.forall hsym hp hq hne

/-- The two concrete posts of the C6 witness: disjoint single-label tag
structures, scores 1 and 0. -/
def wA : Post := ⟨"a", "", [("style", [⟨"x", 1⟩])], some 1, none, none⟩

def wB : Post := ⟨"b", "", [("style", [⟨"y", 1⟩])], some 0, none, none⟩

theorem wAB_sim : tag_similarity wB.mlTags wA.mlTags = 0 := by
  unfold tag_similarity
  have hB : labelSet wB.mlTags = {"y"} := by decide
  have hA : labelSet wA.mlTags = {"x"} := by decide
  rw [hB, hA]
  rw [if_neg (by decide)]
  rw [show ({"y"} ∩ {"x"} : Finset String) = ∅ by decide]
  simp

theorem wAB_feed : (assemble_feed [wA, wB] 2).1 = [wA, wB] := by
  have hsort : sortByKeyDesc postScore [wA, wB] = [wA, wB] := by
    simp only [sortByKeyDesc, insertByDesc]
    rw [if_neg (by norm_num [postScore, wA, wB])]
  unfold assemble_feed
  rw [hsort]
  have hnotlt : ¬ (DIVERSITY_THRESHOLD < (0 : ℝ)) := by
    norm_num [DIVERSITY_THRESHOLD]
  simp [greedyLoop, wAB_sim, hnotlt]

/-- C6 witness: both concrete posts land in the feed, are distinct, and the
theorem yields their similarity bound. -/
theorem assemble_feed_diverse_witness :
    wA ∈ (assemble_feed [wA, wB] 2).1 ∧ wB ∈ (assemble_feed [wA, wB] 2).1 ∧
      wA ≠ wB ∧ tag_similarity wA.mlTags wB.mlTags ≤ DIVERSITY_THRESHOLD := by
  have hA : wA ∈ (assemble_feed [wA, wB] 2).1 := by rw [wAB_feed]; simp
  have hB : wB ∈ (assemble_feed [wA, wB] 2).1 := by rw [wAB_feed]; simp
  have hne : wA ≠ wB := by
    intro h
    have := congrArg Post.id h
    simp [wA, wB] at this
  exact ⟨hA, hB, hne, assemble_feed_diverse [wA, wB] 2 wA wB hA hB hne⟩

-- ==========================================
-- THE /recommend ENDPOINT
-- ==========================================

/-- The inputs of one `/recommend` call: the current model, the request
fields, and the random draws the call will consume (`draw1`/`draw2` are the
per-post uniform exploration draws of the two scoring passes,
`freshU*`/`freshP*` the fresh embeddings `predict` would draw for unseen
ids). -/
structure RecArgs where
  m : LoomNCF
  user_id : Option String
  posts : List Post
  history : List Interaction
  followed : List String
  stats : List (String × CreatorStats)
  top_n_req : ℕ
  draw1 : ℕ → ℝ
  draw2 : ℕ → ℝ
  freshU1 : ℕ → List ℝ
  freshP1 : ℕ → List ℝ
  freshU2 : ℕ → List ℝ
  freshP2 : ℕ → List ℝ

/-- One scoring pass of `recommend`: assigns `post["score"]` (and, when
`setW` — pass 1 — also `post["ncf_weight"]`) to every post in order,
threading the model state because each hybrid score may insert missing
embeddings via `predict`; `i` indexes the per-post random draws. -/
def scorePosts (setW : Bool) (user_id : Option String) (aff : Affinity)
    (seen : SeenCounts) (draws : ℕ → ℝ) (followed : List String)
    (stats : List (String × CreatorStats)) (freshU freshP : ℕ → List ℝ) :
    LoomNCF → ℕ → List Post → List Post × LoomNCF
  | m, _, [] => ([], m)
  | m, i, p :: rest =>
      let r := compute_hybrid_score m user_id p aff seen (draws i) followed
        stats (freshU i) (freshP i)
      let w : Option ℝ :=
        if setW then
          some (match user_id with
            | none => 0
            | some uid => if uid = "" then 0 else ncf_weight r.2 uid)
        else p.ncfWeight
      let rest2 := scorePosts setW user_id aff seen draws followed stats
        freshU freshP r.2 (i + 1) rest
      ({ p with score := some r.1, ncfWeight := w } :: rest2.1, rest2.2)

/-- `top_n = req.top_n or 20`. -/
def rTopN (a : RecArgs) : ℕ := if a.top_n_req = 0 then 20 else a.top_n_req

/-- `n_serendipity = max(1, int(top_n * 0.1))` (the float product truncates
to `top_n / 10` for the integer request sizes in play). -/
def rNSer (a : RecArgs) : ℕ := max 1 (rTopN a / 10)

/-- `n_personalised = top_n - n_serendipity`. -/
def rNPers (a : RecArgs) : ℕ := rTopN a - rNSer a

def rAffinity (a : RecArgs) : Affinity := build_user_affinity a.history

/-- First pass: score every candidate with empty seen-tag counts. -/
def rPass1 (a : RecArgs) : List Post × LoomNCF :=
  scorePosts true a.user_id (rAffinity a) [] a.draw1 a.followed a.stats
    a.freshU1 a.freshP1 a.m 0 a.posts

def rAssemble (a : RecArgs) : List Post × SeenCounts :=
  assemble_feed (rPass1 a).1 (rNPers a)

def rPersonalised (a : RecArgs) : List Post := (rAssemble a).1

/-- `remaining = [p for p in posts if p not in personalised]` (Python `in`
on dicts compares by value). -/
def rRemaining (a : RecArgs) : List Post :=
  (rPass1 a).1.filter (fun p => !decide (p ∈ rPersonalised a))

/-- Second pass: re-score the remainder with the accumulated seen-tag
counts. -/
def rPass2 (a : RecArgs) : List Post × LoomNCF :=
  scorePosts false a.user_id (rAffinity a) (rAssemble a).2 a.draw2 a.followed
    a.stats a.freshU2 a.freshP2 (rPass1 a).2 0 (rRemaining a)

def rSerendipity (a : RecArgs) : List Post :=
  pick_serendipity (rPass2 a).1 (rPersonalised a) (rNSer a)

/-- The serendipity picks after `post["is_serendipity"] = True`. -/
def rSerenFlagged (a : RecArgs) : List Post :=
  (rSerendipity a).map (fun p => { p with isSerendipity := some true })

/-- The end state of the re-scored remainder: the picks carry the
serendipity flag (they are mutated in place). -/
def rFlagged (a : RecArgs) : List Post :=
  (rPass2 a).1.map
    (fun p => if p ∈ rSerendipity a then { p with isSerendipity := some true }
      else p)

/-- The full effect of one `recommend` call: the returned feed (`final`) and
every intermediate, including `postsAfter` — the end states of all
caller-supplied candidate posts (mutated in place by the passes) — and the
model state after the call. -/
structure RecommendResult where
  personalised : List Post
  seen_counts : SeenCounts
  remaining : List Post
  serendipity : List Post
  final : List Post
  postsAfter : List Post
  modelAfter : LoomNCF

def recommendFull (a : RecArgs) : RecommendResult :=
  if a.posts = [] then ⟨[], [], [], [], [], [], a.m⟩
  else
    ⟨rPersonalised a, (rAssemble a).2, rRemaining a, rSerenFlagged a,
      sortByKeyDesc postScore (rPersonalised a ++ rSerenFlagged a),
      rPersonalised a ++ rFlagged a, (rPass2 a).2⟩

/-- The list the `/recommend` endpoint returns. -/
def recommend (a : RecArgs) : List Post := (recommendFull a).final

-- ==========================================
-- SCORING-PASS LEMMAS
-- ==========================================

theorem scorePosts_shape (setW : Bool) (user_id : Option String)
    (aff : Affinity) (seen : SeenCounts) (draws : ℕ → ℝ)
    (followed : List String) (stats : List (String × CreatorStats))
    (freshU freshP : ℕ → List ℝ) :
    ∀ (l : List Post) (m : LoomNCF) (i : ℕ),
      ((scorePosts setW user_id aff seen draws followed stats freshU freshP
          m i l).1).map (fun p => (p.id, p.mlTags)) =
        l.map (fun p => (p.id, p.mlTags))
  | [], m, i => by simp [scorePosts]
  | p :: rest, m, i => by
      simp only [scorePosts, List.map_cons]
      exact congrArg _ (scorePosts_shape setW user_id aff seen draws followed
        stats freshU freshP rest _ _)

theorem scorePosts_score_isSome (setW : Bool) (user_id : Option String)
    (aff : Affinity) (seen : SeenCounts) (draws : ℕ → ℝ)
    (followed : List String) (stats : List (String × CreatorStats))
    (freshU freshP : ℕ → List ℝ) :
    ∀ (l : List Post) (m : LoomNCF) (i : ℕ), ∀ p ∈
      (scorePosts setW user_id aff seen draws followed stats freshU freshP
        m i l).1, p.score.isSome
  | [], m, i => by simp [scorePosts]
  | p :: rest, m, i => by
      intro q hq
      simp only [scorePosts, List.mem_cons] at hq
      rcases hq with hq | hq
      · subst hq; rfl
      · exact scorePosts_score_isSome setW user_id aff seen draws followed
          stats freshU freshP rest _ _ q hq

theorem scorePosts_ncfW_isSome (user_id : Option String)
    (aff : Affinity) (seen : SeenCounts) (draws : ℕ → ℝ)
    (followed : List String) (stats : List (String × CreatorStats))
    (freshU freshP : ℕ → List ℝ) :
    ∀ (l : List Post) (m : LoomNCF) (i : ℕ), ∀ p ∈
      (scorePosts true user_id aff seen draws followed stats freshU freshP
        m i l).1, p.ncfWeight.isSome
  | [], m, i => by simp [scorePosts]
  | p :: rest, m, i => by
      intro q hq
      simp only [scorePosts, List.mem_cons] at hq
      rcases hq with hq | hq
      · subst hq; rfl
      · exact scorePosts_ncfW_isSome user_id aff seen draws followed
          stats freshU freshP rest _ _ q hq

theorem scorePosts_ncfW_map (user_id : Option String)
    (aff : Affinity) (seen : SeenCounts) (draws : ℕ → ℝ)
    (followed : List String) (stats : List (String × CreatorStats))
    (freshU freshP : ℕ → List ℝ) :
    ∀ (l : List Post) (m : LoomNCF) (i : ℕ),
      ((scorePosts false user_id aff seen draws followed stats freshU freshP
          m i l).1).map (·.ncfWeight) = l.map (·.ncfWeight)
  | [], m, i => by simp [scorePosts]
  | p :: rest, m, i => by
      simp only [scorePosts, List.map_cons, Bool.false_eq_true, if_false]
      exact congrArg _ (scorePosts_ncfW_map user_id aff seen draws followed
        stats freshU freshP rest _ _)

-- ==========================================
-- C10
-- ==========================================

/-- C10: `recommend` mutates the caller-supplied candidates in place: after
the call every candidate post — also those not returned in the feed — has a
corresponding end state carrying an assigned `score` and `ncf_weight`, and
every post chosen for the serendipity slice carries
`is_serendipity = True`. -/
theorem recommend_mutates_candidates (a : RecArgs) (p : Post)
    (hp : p ∈ a.posts) :
    (∃ q ∈ (recommendFull a).postsAfter,
        q.id = p.id ∧ q.score.isSome ∧ q.ncfWeight.isSome) ∧
      (∀ s ∈ (recommendFull a).serendipity, s.isSerendipity = some true) := by
  have hne : a.posts ≠ [] := by
    intro h
    rw [h] at hp
    simp at hp
  have hres : recommendFull a =
      ⟨rPersonalised a, (rAssemble a).2, rRemaining a, rSerenFlagged a,
        sortByKeyDesc postScore (rPersonalised a ++ rSerenFlagged a),
        rPersonalised a ++ rFlagged a, (rPass2 a).2⟩ := by
    rw [recommendFull, if_neg hne]
  rw [hres]
  constructor
  · -- find p's end state
    have hshape1 := scorePosts_shape true a.user_id (rAffinity a) []
      a.draw1 a.followed a.stats a.freshU1 a.freshP1 a.posts a.m 0
    have hmem1 : (p.id, p.mlTags) ∈ ((rPass1 a).1).map
        (fun p => (p.id, p.mlTags)) := by
      rw [rPass1, hshape1]
      exact List.mem_map_of_mem _ hp
    obtain ⟨p1, hp1, hp1eq⟩ := List.mem_map.mp hmem1
    have hp1id : p1.id = p.id := congrArg Prod.fst hp1eq
    have hp1score : p1.score.isSome :=
      scorePosts_score_isSome true a.user_id (rAffinity a) [] a.draw1
        a.followed a.stats a.freshU1 a.freshP1 a.posts a.m 0 p1 hp1
    have hp1ncf : p1.ncfWeight.isSome :=
      scorePosts_ncfW_isSome a.user_id (rAffinity a) [] a.draw1
        a.followed a.stats a.freshU1 a.freshP1 a.posts a.m 0 p1 hp1
    by_cases hpers : p1 ∈ rPersonalised a
    · exact ⟨p1, List.mem_append_left _ hpers, hp1id, hp1score, hp1ncf⟩
    · -- p1 survives into the remainder, gets re-scored and possibly flagged
      have hrem : p1 ∈ rRemaining a := by
        rw [rRemaining]
        exact List.mem_filter.mpr ⟨hp1, by simp [hpers]⟩
      have hshape2 := scorePosts_shape false a.user_id (rAffinity a)
        (rAssemble a).2 a.draw2 a.followed a.stats a.freshU2 a.freshP2
        (rRemaining a) (rPass1 a).2 0
      have hmem2 : (p1.id, p1.mlTags) ∈ ((rPass2 a).1).map
          (fun p => (p.id, p.mlTags)) := by
        rw [rPass2, hshape2]
        exact List.mem_map_of_mem _ hrem
      obtain ⟨q2, hq2, hq2eq⟩ := List.mem_map.mp hmem2
      have hq2id : q2.id = p1.id := congrArg Prod.fst hq2eq
      have hq2score : q2.score.isSome :=
        scorePosts_score_isSome false a.user_id (rAffinity a) (rAssemble a).2
          a.draw2 a.followed a.stats a.freshU2 a.freshP2 (rRemaining a)
          (rPass1 a).2 0 q2 hq2
      have hq2ncf : q2.ncfWeight.isSome := by
        have hmap := scorePosts_ncfW_map a.user_id (rAffinity a)
          (rAssemble a).2 a.draw2 a.followed a.stats a.freshU2 a.freshP2
          (rRemaining a) (rPass1 a).2 0
        have : q2.ncfWeight ∈ ((rPass2 a).1).map (·.ncfWeight) :=
          List.mem_map_of_mem _ hq2
        rw [rPass2, hmap] at this
        obtain ⟨p3, hp3, hp3eq⟩ := List.mem_map.mp this
        have hp3pass1 : p3 ∈ (rPass1 a).1 := List.mem_of_mem_filter hp3
        have : p3.ncfWeight.isSome :=
          scorePosts_ncfW_isSome a.user_id (rAffinity a) [] a.draw1
            a.followed a.stats a.freshU1 a.freshP1 a.posts a.m 0 p3 hp3pass1
        rw [← hp3eq]
        exact this
      refine ⟨if q2 ∈ rSerendipity a then
          { q2 with isSerendipity := some true } else q2,
        List.mem_append_right _ (List.mem_map_of_mem _ hq2), ?_, ?_, ?_⟩
      · split_ifs <;> simp [hq2id, hp1id]
      · split_ifs <;> simpa using hq2score
      · split_ifs <;> simpa using hq2ncf
  · intro s hs
    rw [rSerenFlagged] at hs
    obtain ⟨x, hx, rfl⟩ := List.mem_map.mp hs
    rfl

/-- C10 witness: a one-candidate request; the candidate's end state carries
assigned score and ncf_weight fields, and every serendipity pick is
flagged. -/
theorem recommend_mutates_candidates_witness :
    (∃ q ∈ (recommendFull ⟨⟨1, 0.01, 0.001, [], [], [], [], [], 0, []⟩,
        none, [wA], [], [], [], 1, fun _ => 0, fun _ => 0, fun _ => [],
        fun _ => [], fun _ => [], fun _ => []⟩).postsAfter,
        q.id = wA.id ∧ q.score.isSome ∧ q.ncfWeight.isSome) ∧
      (∀ s ∈ (recommendFull ⟨⟨1, 0.01, 0.001, [], [], [], [], [], 0, []⟩,
        none, [wA], [], [], [], 1, fun _ => 0, fun _ => 0, fun _ => [],
        fun _ => [], fun _ => [], fun _ => []⟩).serendipity,
        s.isSerendipity = some true) :=
  recommend_mutates_candidates _ wA (by simp)

-- ==========================================
-- C8 HELPERS
-- ==========================================

theorem greedyLoop_take (n : ℕ) :
    ∀ (l feed : List Post) (seen : SeenCounts),
      l.Pairwise
        (fun p q => tag_similarity p.mlTags q.mlTags ≤ DIVERSITY_THRESHOLD) →
      (∀ p ∈ l, ∀ fp ∈ feed,
        tag_similarity p.mlTags fp.mlTags ≤ DIVERSITY_THRESHOLD) →
      (greedyLoop n l feed seen).1 = feed ++ l.take (n - feed.length)
  | [], feed, seen, _, _ => by simp [greedyLoop]
  | p :: rest, feed, seen, hpair, hcross => by
      simp only [greedyLoop]
      split_ifs with h1 h2
      · have h0 : n - feed.length = 0 := by omega
        rw [h0]
        simp
      · exfalso
        obtain ⟨fp, hfp, hlt⟩ := h2
        exact absurd hlt
          (not_lt.mpr (hcross p (List.mem_cons_self p rest) fp hfp))
      · have hcr : ∀ x ∈ rest, ∀ fp ∈ feed ++ [p],
            tag_similarity x.mlTags fp.mlTags ≤ DIVERSITY_THRESHOLD := by
          intro x hx fp hfp
          rcases List.mem_append.mp hfp with hf | hf
          · exact hcross x (List.mem_cons_of_mem p hx) fp hf
          · rw [List.mem_singleton] at hf
            subst hf
            rw [tag_similarity_comm]
            exact (List.pairwise_cons.mp hpair).1 x hx
        rw [greedyLoop_take n rest (feed ++ [p]) _ hpair.of_cons hcr]
        rw [List.length_append, List.length_singleton]
        have hk : n - feed.length = (n - feed.length - 1) + 1 := by omega
        have hk2 : n - (feed.length + 1) = n - feed.length - 1 := by omega
        rw [hk2, hk, List.take_succ_cons, List.append_assoc,
          List.singleton_append]
        simp

/-- Transfer of the pairwise-dissimilarity relation along equal
`(id, mlTags)` projections. -/
theorem map_pair_pairwise {l l2 : List Post}
    (h : l.map (fun p => (p.id, p.mlTags)) =
      l2.map (fun p => (p.id, p.mlTags)))
    (hp : l.Pairwise
      (fun p q => tag_similarity p.mlTags q.mlTags ≤ DIVERSITY_THRESHOLD)) :
    l2.Pairwise
      (fun p q => tag_similarity p.mlTags q.mlTags ≤ DIVERSITY_THRESHOLD) := by
  have hmp : (l.map (fun p => (p.id, p.mlTags))).Pairwise
      (fun x y : String × TagStruct =>
        tag_similarity x.2 y.2 ≤ DIVERSITY_THRESHOLD) :=
    List.pairwise_map.mpr hp
  rw [h] at hmp
  exact List.pairwise_map.mp hmp

theorem map_pair_id {l l2 : List Post}
    (h : l.map (fun p => (p.id, p.mlTags)) =
      l2.map (fun p => (p.id, p.mlTags))) :
    l.map Post.id = l2.map Post.id := by
  have h1 : ∀ l3 : List Post, l3.map Post.id =
      (l3.map (fun p => (p.id, p.mlTags))).map Prod.fst := by
    intro l3
    rw [List.map_map]
    rfl
  rw [h1, h1, h]

/-- The symmetry of the diversity relation, packaged for `Perm.pairwise_iff`. -/
theorem divRel_symm : Symmetric
    (fun a b : Post =>
      tag_similarity a.mlTags b.mlTags ≤ DIVERSITY_THRESHOLD) := by
  intro a b hab
  rwa [tag_similarity_comm]

-- ==========================================
-- C8
-- ==========================================

/-- C8 (amended): recommending over an empty candidate list returns the
empty feed without error; and when the requested size exceeds the candidate
count, the call still never fails and — provided the candidates carry
pairwise-distinct ids and pass the diversity filter pairwise (tag similarity
at most the threshold) — every supplied candidate appears (by id) in the
returned feed.  (Unamended, the claim is false: candidates rejected by the
diversity filter can be dropped even when `topN` exceeds the candidate
count, because serendipity slots are capped at `max(1, topN / 10)` — see the
counterexample.) -/
theorem recommend_edge_cases (a : RecArgs) :
    (a.posts = [] → recommend a = []) ∧
    ((a.posts.map Post.id).Nodup →
      a.posts.Pairwise
        (fun p q => tag_similarity p.mlTags q.mlTags ≤ DIVERSITY_THRESHOLD) →
      a.posts.length < a.top_n_req →
      ∀ p ∈ a.posts, ∃ q ∈ recommend a, q.id = p.id) := by
  constructor
  · intro h
    simp [recommend, recommendFull, h]
  intro hnodup hpair hlen p hp
  have hne : a.posts ≠ [] := List.ne_nil_of_mem hp
  have hfin : recommend a =
      sortByKeyDesc postScore (rPersonalised a ++ rSerenFlagged a) := by
    rw [recommend, recommendFull, if_neg hne]
  -- pass-1 structure
  have hshape1 : ((rPass1 a).1).map (fun p => (p.id, p.mlTags)) =
      a.posts.map (fun p => (p.id, p.mlTags)) :=
    scorePosts_shape true a.user_id (rAffinity a) []
      a.draw1 a.followed a.stats a.freshU1 a.freshP1 a.posts a.m 0
  have hpass1pair := map_pair_pairwise hshape1.symm hpair
  have hpass1ids : ((rPass1 a).1.map Post.id).Nodup := by
    rw [map_pair_id hshape1]
    exact hnodup
  have hpass1nodup : (rPass1 a).1.Nodup := hpass1ids.of_map
  have hpass1len : (rPass1 a).1.length = a.posts.length := by
    have := congrArg List.length hshape1
    simpa using this
  -- the sorted pass-1 list
  have hsperm := sortByKeyDesc_perm postScore (rPass1 a).1
  have hspair := (hsperm.pairwise_iff
    (fun {x y} h => divRel_symm h)).mpr hpass1pair
  have hsids : ((sortByKeyDesc postScore (rPass1 a).1).map Post.id).Nodup :=
    ((hsperm.map Post.id).nodup_iff).mpr hpass1ids
  have hsnodup : (sortByKeyDesc postScore (rPass1 a).1).Nodup := hsids.of_map
  have hslen : (sortByKeyDesc postScore (rPass1 a).1).length =
      a.posts.length := by
    rw [hsperm.length_eq, hpass1len]
  -- the personalized slice is an initial segment of the sorted list
  have hpers_take : rPersonalised a =
      (sortByKeyDesc postScore (rPass1 a).1).take (rNPers a) := by
    rw [rPersonalised, rAssemble, assemble_feed]
    have := greedyLoop_take (rNPers a)
      (sortByKeyDesc postScore (rPass1 a).1) [] [] hspair (by simp)
    simpa using this
  have hpers_sub_pass1 : ∀ x ∈ rPersonalised a, x ∈ (rPass1 a).1 := by
    intro x hx
    rw [hpers_take] at hx
    exact hsperm.mem_iff.mp (List.take_subset _ _ hx)
  have hpers_nodup : (rPersonalised a).Nodup := by
    rw [hpers_take]
    exact hsnodup.sublist (List.take_sublist _ _)
  have hpers_len : (rPersonalised a).length =
      min (rNPers a) a.posts.length := by
    rw [hpers_take, List.length_take, hslen]
  have hid_inj := List.inj_on_of_nodup_map hpass1ids
  -- length bookkeeping for the remainder
  have hfilter_len : ((rPass1 a).1.filter
      (fun x => decide (x ∈ rPersonalised a))).length =
      (rPersonalised a).length := by
    have hfnodup : ((rPass1 a).1.filter
        (fun x => decide (x ∈ rPersonalised a))).Nodup :=
      hpass1nodup.sublist (List.filter_sublist _)
    have hperm2 : List.Perm
        ((rPass1 a).1.filter (fun x => decide (x ∈ rPersonalised a)))
        (rPersonalised a) := by
      rw [List.perm_ext_iff_of_nodup hfnodup hpers_nodup]
      intro x
      rw [List.mem_filter]
      simp only [decide_eq_true_eq]
      constructor
      · exact fun hx => hx.2
      · exact fun hx => ⟨hpers_sub_pass1 x hx, hx⟩
    exact hperm2.length_eq
  have hrem_len : (rRemaining a).length =
      a.posts.length - (rPersonalised a).length := by
    have hsplit := List.length_eq_length_filter_add (l := (rPass1 a).1)
      (fun x => decide (x ∈ rPersonalised a))
    rw [rRemaining]
    rw [hpass1len, hfilter_len] at hsplit
    have hple : (rPersonalised a).length ≤ a.posts.length := by
      rw [hpers_len]
      exact min_le_right _ _
    omega
  -- serendipity slots cover the whole remainder
  have htop : rTopN a = a.top_n_req := by
    rw [rTopN, if_neg]
    omega
  have hnser1 : 1 ≤ rNSer a := le_max_left _ _
  have hnserle : rNSer a ≤ rTopN a := by
    rw [rNSer]
    exact max_le (by omega) (Nat.div_le_self _ _)
  have hremle : (rRemaining a).length ≤ rNSer a := by
    rcases le_total (rNPers a) a.posts.length with h | h
    · rw [hrem_len, hpers_len, min_eq_left h, rNPers]
      omega
    · rw [hrem_len, hpers_len, min_eq_right h]
      omega
  -- pass-2 structure
  have hshape2 : ((rPass2 a).1).map (fun p => (p.id, p.mlTags)) =
      (rRemaining a).map (fun p => (p.id, p.mlTags)) :=
    scorePosts_shape false a.user_id (rAffinity a)
      (rAssemble a).2 a.draw2 a.followed a.stats a.freshU2 a.freshP2
      (rRemaining a) (rPass1 a).2 0
  have hpass2len : (rPass2 a).1.length = (rRemaining a).length := by
    have := congrArg List.length hshape2
    simpa using this
  have hpass2notpers : ∀ z ∈ (rPass2 a).1, z ∉ rPersonalised a := by
    intro z hz hzpers
    have hmemz : (z.id, z.mlTags) ∈ ((rPass2 a).1).map
        (fun p => (p.id, p.mlTags)) := List.mem_map_of_mem _ hz
    rw [hshape2] at hmemz
    obtain ⟨p3, hp3, hp3eq⟩ := List.mem_map.mp hmemz
    have hp3id : p3.id = z.id := congrArg Prod.fst hp3eq
    have hp3f := List.mem_filter.mp (by rw [rRemaining] at hp3; exact hp3)
    have hp3pass1 : p3 ∈ (rPass1 a).1 := hp3f.1
    have hp3notpers : p3 ∉ rPersonalised a := by
      have := hp3f.2
      simp only [Bool.not_eq_eq_eq_not, Bool.not_true, decide_eq_false_iff_not] at this
      exact this
    have hz1 : z ∈ (rPass1 a).1 := hpers_sub_pass1 z hzpers
    have : z = p3 := hid_inj hz1 hp3pass1 hp3id.symm
    rw [this] at hzpers
    exact hp3notpers hzpers
  -- where does p end up?
  have hmem1 : (p.id, p.mlTags) ∈ ((rPass1 a).1).map
      (fun p => (p.id, p.mlTags)) := by
    rw [hshape1]
    exact List.mem_map_of_mem _ hp
  obtain ⟨p1, hp1, hp1eq⟩ := List.mem_map.mp hmem1
  have hp1id : p1.id = p.id := congrArg Prod.fst hp1eq
  by_cases hpers : p1 ∈ rPersonalised a
  · refine ⟨p1, ?_, hp1id⟩
    rw [hfin]
    exact (sortByKeyDesc_perm _ _).mem_iff.mpr (List.mem_append_left _ hpers)
  · have hrem : p1 ∈ rRemaining a := by
      rw [rRemaining]
      exact List.mem_filter.mpr ⟨hp1, by simp [hpers]⟩
    have hmem2 : (p1.id, p1.mlTags) ∈ ((rPass2 a).1).map
        (fun p => (p.id, p.mlTags)) := by
      rw [hshape2]
      exact List.mem_map_of_mem _ hrem
    obtain ⟨q2, hq2, hq2eq⟩ := List.mem_map.mp hmem2
    have hq2id : q2.id = p1.id := congrArg Prod.fst hq2eq
    -- the serendipity pool takes all of pass 2
    have hcand : (rPass2 a).1.filter
        (fun x => !decide (x ∈ rPersonalised a)) = (rPass2 a).1 :=
      List.filter_eq_self.mpr (fun z hz => by simp [hpass2notpers z hz])
    have hpass2ne : (rPass2 a).1 ≠ [] := List.ne_nil_of_mem hq2
    have hser : rSerendipity a =
        (sortByKeyDesc (dissimilarity (rPersonalised a))
          (rPass2 a).1).take (rNSer a) := by
      rw [rSerendipity, pick_serendipity]
      simp only [hcand]
      rw [if_neg hpass2ne]
    have htakeall : (sortByKeyDesc (dissimilarity (rPersonalised a))
        (rPass2 a).1).take (rNSer a) =
        sortByKeyDesc (dissimilarity (rPersonalised a)) (rPass2 a).1 := by
      apply List.take_of_length_le
      rw [(sortByKeyDesc_perm _ _).length_eq, hpass2len]
      exact hremle
    have hq2ser : q2 ∈ rSerendipity a := by
      rw [hser, htakeall]
      exact (sortByKeyDesc_perm _ _).mem_iff.mpr hq2
    refine ⟨{ q2 with isSerendipity := some true }, ?_, by
      simpa using hq2id.trans hp1id⟩
    rw [hfin]
    refine (sortByKeyDesc_perm _ _).mem_iff.mpr (List.mem_append_right _ ?_)
    rw [rSerenFlagged]
    exact List.mem_map_of_mem _ hq2ser

/-- C8 witness: a single pairwise-trivial candidate and `topN = 2`; the
empty-input clause gives the empty feed, and the completeness clause puts
the candidate in the returned feed. -/
theorem recommend_edge_cases_witness :
    recommend ⟨⟨1, 0.01, 0.001, [], [], [], [], [], 0, []⟩, none, [],
        [], [], [], 2, fun _ => 0, fun _ => 0, fun _ => [], fun _ => [],
        fun _ => [], fun _ => []⟩ = [] ∧
      ∃ q ∈ recommend ⟨⟨1, 0.01, 0.001, [], [], [], [], [], 0, []⟩, none,
        [wA], [], [], [], 2, fun _ => 0, fun _ => 0, fun _ => [],
        fun _ => [], fun _ => [], fun _ => []⟩, q.id = wA.id := by
  constructor
  · exact (recommend_edge_cases _).1 rfl
  · exact (recommend_edge_cases _).2 (by simp) (by simp) (by simp) wA
      (by simp)

-- ==========================================
-- C8 COUNTEREXAMPLE SCENARIO
-- ==========================================

theorem post_ne_of_id {p q : Post} (h : p.id ≠ q.id) : p ≠ q :=
  fun he => h (congrArg Post.id he)

def cM : LoomNCF := ⟨1, 0.01, 0.001, [], [], [], [], [], 0, []⟩

/-- Three candidates with identical tag structures. -/
def cP1 : Post := ⟨"p1", "", [("style", [⟨"x", 1⟩])], none, none, none⟩

def cP2 : Post := ⟨"p2", "", [("style", [⟨"x", 1⟩])], none, none, none⟩

def cP3 : Post := ⟨"p3", "", [("style", [⟨"x", 1⟩])], none, none, none⟩

/-- A `topN = 4` anonymous request over the three identical candidates. -/
def cArgs : RecArgs :=
  ⟨cM, none, [cP1, cP2, cP3], [], [], [], 4, fun _ => 0, fun _ => 0,
    fun _ => [], fun _ => [], fun _ => [], fun _ => []⟩

/-- The common pass-1 score of the three candidates. -/
def cScore : ℝ :=
  finalScore (compute_tag_score [("style", [⟨"x", 1⟩])] [] [] 0)
    (followedBoost "" []) (behavior_factor ((alookup "" []).getD defaultStats))

def cQ1 : Post := ⟨"p1", "", [("style", [⟨"x", 1⟩])], some cScore, some 0, none⟩

def cQ2 : Post := ⟨"p2", "", [("style", [⟨"x", 1⟩])], some cScore, some 0, none⟩

def cQ3 : Post := ⟨"p3", "", [("style", [⟨"x", 1⟩])], some cScore, some 0, none⟩

/-- The seen-tag counts accumulated from the single accepted post. -/
def cSeen : SeenCounts := bumpSeen [] [("style", [⟨"x", 1⟩])]

/-- The common pass-2 (decayed) score of the remaining candidates. -/
def cScore2 : ℝ :=
  finalScore (compute_tag_score [("style", [⟨"x", 1⟩])] [] cSeen 0)
    (followedBoost "" []) (behavior_factor ((alookup "" []).getD defaultStats))

def cR2 : Post := ⟨"p2", "", [("style", [⟨"x", 1⟩])], some cScore2, some 0, none⟩

def cR3 : Post := ⟨"p3", "", [("style", [⟨"x", 1⟩])], some cScore2, some 0, none⟩

def cR2f : Post :=
  ⟨"p2", "", [("style", [⟨"x", 1⟩])], some cScore2, some 0, some true⟩

theorem cSim_self :
    tag_similarity [("style", [⟨"x", (1 : ℝ)⟩])]
      [("style", [⟨"x", (1 : ℝ)⟩])] = 1 := by
  unfold tag_similarity
  have hl : labelSet [("style", [⟨"x", (1 : ℝ)⟩])] = {"x"} := by decide
  rw [hl]
  rw [if_neg (by decide)]
  rw [show ({"x"} ∩ {"x"} : Finset String) = {"x"} by decide,
    show ({"x"} ∪ {"x"} : Finset String) = {"x"} by decide]
  norm_num

theorem cSim_gt :
    DIVERSITY_THRESHOLD < tag_similarity [("style", [⟨"x", (1 : ℝ)⟩])]
      [("style", [⟨"x", (1 : ℝ)⟩])] := by
  rw [cSim_self]
  norm_num [DIVERSITY_THRESHOLD]

theorem cPass1 : rPass1 cArgs = ([cQ1, cQ2, cQ3], cM) := by
  simp only [rPass1, cArgs, rAffinity, build_user_affinity, accum_affinity,
    List.foldl_nil, List.map_nil, scorePosts, compute_hybrid_score,
    cP1, cP2, cP3]
  simp [cQ1, cQ2, cQ3, cScore]

theorem cNPers : rNPers cArgs = 3 := by
  simp [rNPers, rNSer, rTopN, cArgs]

theorem cNSer : rNSer cArgs = 1 := by
  simp [rNSer, rTopN, cArgs]

theorem cSort : sortByKeyDesc postScore [cQ1, cQ2, cQ3] = [cQ1, cQ2, cQ3] := by
  simp only [sortByKeyDesc, insertByDesc]
  rw [if_neg (by simp [postScore, cQ2, cQ3])]
  simp only [insertByDesc]
  rw [if_neg (by simp [postScore, cQ1, cQ2])]

theorem cAssembleEq : rAssemble cArgs = ([cQ1], cSeen) := by
  rw [rAssemble, cPass1, cNPers]
  show assemble_feed [cQ1, cQ2, cQ3] 3 = ([cQ1], cSeen)
  rw [assemble_feed, cSort]
  simp only [greedyLoop, List.length_nil, List.length_cons]
  rw [if_neg (by norm_num), if_neg (by simp)]
  rw [if_neg (by norm_num),
    if_pos (by
      refine ⟨cQ1, by simp, ?_⟩
      simpa [cQ2, cQ1] using cSim_gt)]
  rw [if_neg (by norm_num),
    if_pos (by
      refine ⟨cQ1, by simp, ?_⟩
      simpa [cQ3, cQ1] using cSim_gt)]
  simp [greedyLoop, cSeen, cQ1]

theorem cPersonalised : rPersonalised cArgs = [cQ1] := by
  rw [rPersonalised, cAssembleEq]

theorem cRemaining : rRemaining cArgs = [cQ2, cQ3] := by
  have h1 : (!decide (cQ1 ∈ [cQ1])) = false := by simp
  have h2 : (!decide (cQ2 ∈ [cQ1])) = true := by
    simp only [Bool.not_eq_true', decide_eq_false_iff_not]
    simp only [List.mem_singleton]
    exact post_ne_of_id (by simp [cQ1, cQ2])
  have h3 : (!decide (cQ3 ∈ [cQ1])) = true := by
    simp only [Bool.not_eq_true', decide_eq_false_iff_not]
    simp only [List.mem_singleton]
    exact post_ne_of_id (by simp [cQ1, cQ3])
  rw [rRemaining, cPass1, cPersonalised]
  show List.filter _ [cQ1, cQ2, cQ3] = [cQ2, cQ3]
  rw [List.filter_cons, List.filter_cons, List.filter_cons]
  rw [h1, h2, h3]
  simp

theorem cPass2 : rPass2 cArgs = ([cR2, cR3], cM) := by
  rw [rPass2, cAssembleEq, cPass1, cRemaining]
  simp only [cArgs, rAffinity, build_user_affinity, accum_affinity,
    List.foldl_nil, List.map_nil, scorePosts, compute_hybrid_score,
    cQ2, cQ3]
  simp [cR2, cR3, cScore2]

theorem cSerendipity : rSerendipity cArgs = [cR2] := by
  rw [rSerendipity, cPass2, cPersonalised, cNSer]
  show pick_serendipity [cR2, cR3] [cQ1] 1 = [cR2]
  have h2 : (!decide (cR2 ∈ [cQ1])) = true := by
    simp only [Bool.not_eq_true', decide_eq_false_iff_not]
    simp only [List.mem_singleton]
    exact post_ne_of_id (by simp [cQ1, cR2])
  have h3 : (!decide (cR3 ∈ [cQ1])) = true := by
    simp only [Bool.not_eq_true', decide_eq_false_iff_not]
    simp only [List.mem_singleton]
    exact post_ne_of_id (by simp [cQ1, cR3])
  simp only [pick_serendipity]
  rw [List.filter_cons, List.filter_cons]
  rw [h2, h3]
  simp only [List.filter_nil, if_true]
  rw [if_neg (by simp)]
  simp only [sortByKeyDesc, insertByDesc]
  rw [if_neg (by simp [dissimilarity, cR2, cR3, cQ1])]
  simp

theorem cFinal_mem : ∀ q ∈ recommend cArgs, q = cQ1 ∨ q = cR2f := by
  intro q hq
  rw [recommend, recommendFull, if_neg (by simp [cArgs])] at hq
  simp only at hq
  rw [cPersonalised] at hq
  rw [show rSerenFlagged cArgs = [cR2f] by
    rw [rSerenFlagged, cSerendipity]
    simp [cR2, cR2f]] at hq
  have := (sortByKeyDesc_perm postScore ([cQ1] ++ [cR2f])).mem_iff.mp hq
  simpa using this

/-- C8 counterexample: with `topN = 4` and three candidates of identical
tags, the returned feed holds only two posts (one personalized, one
serendipity) — candidate `"p3"` is dropped despite `topN` exceeding the
candidate count, refuting "every supplied candidate appears in the returned
feed". -/
theorem recommend_drops_candidate_counterexample :
    cArgs.posts.length < cArgs.top_n_req ∧
      ¬ (∀ p ∈ cArgs.posts, ∃ q ∈ recommend cArgs, q.id = p.id) := by
  constructor
  · simp [cArgs]
  · intro hall
    obtain ⟨q, hq, hid⟩ := hall cP3 (by simp [cArgs])
    rcases cFinal_mem q hq with rfl | rfl
    · rw [show cQ1.id = "p1" from rfl, show cP3.id = "p3" from rfl] at hid
      simp at hid
    · rw [show cR2f.id = "p2" from rfl, show cP3.id = "p3" from rfl] at hid
      simp at hid

end

end Loom
